import Mathlib

/-!
Shallow embedding of the tiered attendance data store in
`src/services/DataManager.js` (the module loaded by `routes/api.js`).

Modelling conventions:
* JSON-shaped values are modelled by `JVal`; .js objects become association
  lists whose order is insertion order (JS object key order for string keys).
* Timestamps are milliseconds since the Unix epoch (`Nat`); `new Date(ts)`
  month extraction is `ymOfTs`, a UTC Gregorian conversion.
* The process clock (`Date.now()`) is passed explicitly as a `now` argument.
* Month-shard cache keys are the strings `"<year>-<month>"`; since the
  formatting is injective on (year, month) pairs they are modelled as pairs.
* The remote archival service and the `GAS_COLD_STORAGE_URL` configuration
  are passed as explicit oracle arguments (`Option` = success/failure).
-/

mutual
/-- JSON values as produced by `JSON.parse` (arrays and objects via the
mutually inductive `JArr`/`JObj` spines so that equality is derivable). -/
inductive JVal where
  | jnull : JVal
  | jbool : Bool → JVal
  | jnum : Int → JVal
  | jstr : String → JVal
  | jarr : JArr → JVal
  | jobj : JObj → JVal
deriving DecidableEq, Repr
inductive JArr where
  | nil : JArr
  | cons : JVal → JArr → JArr
deriving DecidableEq, Repr
inductive JObj where
  | nil : JObj
  | cons : String → JVal → JObj → JObj
deriving DecidableEq, Repr
end

/-- Lookup in a JS object modelled as an association list (first match wins). -/
def olookup [DecidableEq κ] (o : List (κ × α)) (k : κ) : Option α :=
  match o with
  | [] => none
  | (k', v) :: rest => if k' = k then some v else olookup rest k

/-- JS `obj[k] = v`: replace the first binding of `k`, or append a new one. -/
def oset [DecidableEq κ] (o : List (κ × α)) (k : κ) (v : α) : List (κ × α) :=
  match o with
  | [] => [(k, v)]
  | (k', v') :: rest => if k' = k then (k, v) :: rest else (k', v') :: oset rest k v

/-- A shift entry `{start, end, location?, note?}` as written by `logShift`. -/
structure ShiftEntry where
  start : Option Nat
  «end» : Option Nat
  location : Option String
  note : Option String
deriving DecidableEq, Repr

/-- Gregorian civil date (year, month, day) from a day count since 1970-01-01,
the standard era-based conversion used by `Date` implementations. -/
def civilFromDays (z0 : Nat) : Nat × Nat × Nat :=
  let z := z0 + 719468
  let era := z / 146097
  let doe := z % 146097
  let yoe := (doe - doe / 1460 + doe / 36524 - doe / 146096) / 365
  let y := yoe + era * 400
  let doy := doe - (365 * yoe + yoe / 4 - yoe / 100)
  let mp := (5 * doy + 2) / 153
  let d := doy - (153 * mp + 2) / 5 + 1
  let m := if mp < 10 then mp + 3 else mp - 9
  (if m ≤ 2 then y + 1 else y, m, d)

/-- The result of `new Date(ts).getFullYear()` / `.getMonth() + 1` (UTC) for
a millisecond timestamp: the (year, month) pair `logShift` shards by. -/
def ymOfTs (ts : Nat) : Nat × Nat :=
  let c := civilFromDays (ts / 86400000)
  (c.1, c.2.1)

example : ymOfTs 0 = (1970, 1) := by decide
example : ymOfTs 1736937000000 = (2025, 1) := by decide
example : ymOfTs 1709164800000 = (2024, 2) := by decide

/-- A month-shard: employee name → append-ordered sequence of shift entries. -/
abbrev Shard : Type := List (String × List ShiftEntry)

/-- JS truthiness of the `end` field of a shift entry (`!lastShift.end` is
true for a null/absent end and for the number `0`). -/
def endFalsy : Option Nat → Bool
  | none => true
  | some n => n == 0

/-- JS truthiness of the optional `note` argument (a string is truthy iff
nonempty). -/
def noteTruthy : Option String → Bool
  | none => false
  | some s => s ≠ ""

/-- The per-employee branch of `logShift` (`src/services/DataManager.js`
lines 276-286): `IN` pushes an open entry; `OUT` closes the last entry when
its `end` is falsy, else pushes a `"Manual Out without In"` entry; any other
action leaves the sequence unchanged. -/
def applyAction (seq : List ShiftEntry) (action : String) (ts : Nat)
    (location note : Option String) : List ShiftEntry :=
  if action = "IN" then
    seq ++ [{ start := some ts, «end» := none, location := location, note := none }]
  else if action = "OUT" then
    match seq.getLast? with
    | some lastShift =>
      if endFalsy lastShift.«end» then
        seq.dropLast ++
          [{ lastShift with
              «end» := some ts
              note := if noteTruthy note then note else lastShift.note }]
      else
        seq ++ [{ start := none, «end» := some ts, location := none,
                  note := some "Manual Out without In" }]
    | none =>
      seq ++ [{ start := none, «end» := some ts, location := none,
                note := some "Manual Out without In" }]
  else
    seq

example : olookup (oset ([] : List (String × Nat)) "a" 3) "a" = some 3 := by decide

example : ({ start := some 1, «end» := none, location := none, note := none : ShiftEntry}).«end» = none := rfl

theorem olookup_oset_self [DecidableEq κ] (o : List (κ × α)) (k : κ) (v : α) :
    olookup (oset o k v) k = some v := by
  induction o with
  | nil => simp [oset, olookup]
  | cons p rest ih =>
    by_cases h : p.1 = k
    · simp [oset, olookup, h]
    · simp [oset, olookup, h, ih]

theorem olookup_oset_ne [DecidableEq κ] (o : List (κ × α)) (k k' : κ) (v : α)
    (h : k ≠ k') : olookup (oset o k v) k' = olookup o k' := by
  induction o with
  | nil => simp [oset, olookup, h]
  | cons p rest ih =>
    by_cases hp : p.1 = k
    · simp [oset, olookup, hp, h]
    · simp only [oset, olookup, if_neg hp]
      by_cases hq : p.1 = k'
      · simp [olookup, hq]
      · simp [olookup, hq, ih]

theorem olookup_append [DecidableEq κ] (o₁ o₂ : List (κ × α)) (k : κ) :
    olookup (o₁ ++ o₂) k =
      match olookup o₁ k with
      | some v => some v
      | none => olookup o₂ k := by
  induction o₁ with
  | nil => simp [olookup]
  | cons p rest ih =>
    by_cases h : p.1 = k
    · simp [olookup, h]
    · simp [olookup, h, ih]

theorem olookup_map [DecidableEq κ] (o : List (κ × α)) (f : κ → α → β) (k : κ) :
    olookup (o.map (fun p => (p.1, f p.1 p.2))) k = (olookup o k).map (f k) := by
  induction o with
  | nil => simp [olookup]
  | cons p rest ih =>
    by_cases h : p.1 = k
    · subst h
      simp [olookup]
    · simp [olookup, h, ih]

theorem olookup_filter_keep [DecidableEq κ] (o : List (κ × α)) (P : κ × α → Bool)
    (k : κ) (h : ∀ v, P (k, v) = true) :
    olookup (o.filter P) k = olookup o k := by
  induction o with
  | nil => simp [olookup]
  | cons p rest ih =>
    by_cases hk : p.1 = k
    · have : P p = true := by
        have := h p.2
        rwa [← hk, Prod.mk.eta] at this
      simp [List.filter_cons, this, olookup, hk]
    · by_cases hP : P p = true
      · simp [List.filter_cons, hP, olookup, hk, ih]
      · simp only [List.filter_cons, Bool.not_eq_true] at hP ⊢
        rw [hP]
        simp [olookup, hk, ih]

theorem olookup_filter_drop [DecidableEq κ] (o : List (κ × α)) (P : κ × α → Bool)
    (k : κ) (h : ∀ v, P (k, v) = false) :
    olookup (o.filter P) k = none := by
  induction o with
  | nil => simp [olookup]
  | cons p rest ih =>
    by_cases hk : p.1 = k
    · have : P p = false := by
        have := h p.2
        rwa [← hk, Prod.mk.eta] at this
      simp only [List.filter_cons, this]
      simpa using ih
    · by_cases hP : P p = true
      · simp [List.filter_cons, hP, olookup, hk, ih]
      · simp only [List.filter_cons, Bool.not_eq_true] at hP ⊢
        rw [hP]
        simpa using ih

theorem olookup_mem_keys [DecidableEq κ] (o : List (κ × α)) (k : κ) (v : α)
    (h : olookup o k = some v) : k ∈ o.map Prod.fst := by
  induction o with
  | nil => simp [olookup] at h
  | cons p rest ih =>
    by_cases hk : p.1 = k
    · simp [hk]
    · simp only [olookup, if_neg hk] at h
      simp [ih h]

/-- One entry of `CACHE.companies`: `{ config, shifts }` with month shards
keyed by `"<year>-<month>"` (modelled as the pair). -/
structure CompanyCache where
  config : List (String × JVal)
  shifts : List ((Nat × Nat) × Shard)
deriving DecidableEq, Repr

/-- The on-disk `dataDir/companies/<id>/` directory: an optional
`config.json` plus the `<year>/<month>.json` shard files. -/
structure DiskCompany where
  config : Option (List (String × JVal))
  shards : List ((Nat × Nat) × Shard)
deriving DecidableEq, Repr

/-- The whole mutable world of `DataManager`: the in-process `CACHE`
(`clients`, `companies`, `historicalData`) plus the on-disk data directory
(`clients.json`, `metadata.json`, the per-company tree). -/
structure DMState where
  clients : JVal
  cacheCompanies : List (String × CompanyCache)
  historical : List (String × List ((Nat × Nat) × (JVal × Nat)))
  diskClients : Option JVal
  diskMetadata : Option Nat
  diskCompanies : List (String × DiskCompany)
deriving DecidableEq, Repr

/-- Model of `getLastWriteTime`: parse `metadata.json`, `0` on any failure. -/
def getLastWriteTime (s : DMState) : Nat :=
  s.diskMetadata.getD 0

/-- Model of `updateLastWriteTime`: write the current clock to
`metadata.json`. -/
def updateLastWriteTime (s : DMState) (now : Nat) : DMState :=
  { s with diskMetadata := some now }

/-- Update (creating on demand) a company's cache entry, as the JS
`CACHE.companies[id] = ...` / field assignments do. -/
def modifyCacheCompany (s : DMState) (cid : String) (f : CompanyCache → CompanyCache) :
    DMState :=
  let cc := (olookup s.cacheCompanies cid).getD ⟨[], []⟩
  { s with cacheCompanies := oset s.cacheCompanies cid (f cc) }

/-- Update (creating on demand, as `fs.mkdir recursive` plus a write does)
a company's on-disk directory. -/
def modifyDiskCompany (s : DMState) (cid : String) (f : DiskCompany → DiskCompany) :
    DMState :=
  let dc := (olookup s.diskCompanies cid).getD ⟨none, []⟩
  { s with diskCompanies := oset s.diskCompanies cid (f dc) }

/-- Model of `fs.mkdir(companyDir, ...)`: ensure the directory exists. -/
def ensureDiskCompany (s : DMState) (cid : String) : DMState :=
  if (olookup s.diskCompanies cid).isSome then s
  else { s with diskCompanies := oset s.diskCompanies cid ⟨none, []⟩ }

/-- Write `companies/<id>/config.json`. -/
def setDiskConfig (s : DMState) (cid : String) (cfg : List (String × JVal)) : DMState :=
  modifyDiskCompany s cid (fun dc => { dc with config := some cfg })

/-- Write `companies/<id>/<year>/<month>.json`. -/
def setDiskShard (s : DMState) (cid : String) (k : Nat × Nat) (sh : Shard) : DMState :=
  modifyDiskCompany s cid (fun dc => { dc with shards := oset dc.shards k sh })

/-- Read `companies/<id>/config.json` if it exists. -/
def diskConfigOf (s : DMState) (cid : String) : Option (List (String × JVal)) :=
  (olookup s.diskCompanies cid).bind (fun dc => dc.config)

/-- Read `companies/<id>/<year>/<month>.json` if it exists. -/
def diskShardOf (s : DMState) (cid : String) (k : Nat × Nat) : Option Shard :=
  (olookup s.diskCompanies cid).bind (fun dc => olookup dc.shards k)

/-- The cached month shard for a company, if loaded. -/
def cacheShardOf (s : DMState) (cid : String) (k : Nat × Nat) : Option Shard :=
  (olookup s.cacheCompanies cid).bind (fun cc => olookup cc.shifts k)

/-- The default config `{ companyId, settings: {} }` used when
`config.json` is missing or unreadable. -/
def defaultConfig (cid : String) : List (String × JVal) :=
  [("companyId", JVal.jstr cid), ("settings", JVal.jobj JObj.nil)]

/-- Model of `loadCompany`: no-op when cached; otherwise create the company dir,
read `config.json` (defaulting), and install `{config, shifts: {}}` in the
cache. -/
def loadCompany (s : DMState) (cid : String) : DMState :=
  if (olookup s.cacheCompanies cid).isSome then s
  else
    let s1 := ensureDiskCompany s cid
    let cfg := (diskConfigOf s1 cid).getD (defaultConfig cid)
    { s1 with cacheCompanies := oset s1.cacheCompanies cid ⟨cfg, []⟩ }

/-- Model of `getShifts`: cache-first read of a month shard; a missing file yields
`{}`; the disk result is installed in the cache. -/
def getShifts (s : DMState) (cid : String) (y m : Nat) : DMState × Shard :=
  let s1 := loadCompany s cid
  match (olookup s1.cacheCompanies cid).bind (fun cc => olookup cc.shifts (y, m)) with
  | some sh => (s1, sh)
  | none =>
    let sh := (diskShardOf s1 cid (y, m)).getD []
    (modifyCacheCompany s1 cid (fun cc => { cc with shifts := oset cc.shifts (y, m) sh }), sh)

/-- Model of `saveShifts`: write the shard to the cache and to
`companies/<id>/<year>/<month>.json`, then advance the write-time
metadata. -/
def saveShifts (s : DMState) (cid : String) (y m : Nat) (shiftsData : Shard)
    (now : Nat) : DMState :=
  let s1 := loadCompany s cid
  let s2 := modifyCacheCompany s1 cid
    (fun cc => { cc with shifts := oset cc.shifts (y, m) shiftsData })
  let s3 := setDiskShard s2 cid (y, m) shiftsData
  updateLastWriteTime s3 now

/-- Model of `logShift`: route the punch to the shard of the timestamp's month,
ensure the employee key exists, apply the `IN`/`OUT` branch, save, and
return `{success: true}` (the email notification block has no store
effect). -/
def logShift (s : DMState) (cid employeeName : String) (action : String)
    (ts : Nat) (location note : Option String) (now : Nat) : DMState × Bool :=
  let y := (ymOfTs ts).1
  let m := (ymOfTs ts).2
  let p := getShifts s cid y m
  let shifts := if olookup p.2 employeeName = none then oset p.2 employeeName [] else p.2
  let seq := (olookup shifts employeeName).getD []
  let shifts' := oset shifts employeeName (applyAction seq action ts location note)
  (saveShifts p.1 cid y m shifts' now, true)

/-- Model of `isHotMonth` with the wall clock (`new Date()`'s current year/month)
made explicit: hot iff the pair is the current or the previous calendar
month. -/
def isHotMonth (currentYear currentMonth : Nat) (year month : Nat) : Bool :=
  if year = currentYear ∧ month = currentMonth then true
  else
    let lastMonth := if currentMonth = 1 then 12 else currentMonth - 1
    let lastMonthYear := if currentMonth = 1 then currentYear - 1 else currentYear
    year = lastMonthYear ∧ month = lastMonth

/-- The previous calendar month of the clock pair, as computed inside
`isHotMonth` (January wraps to December of the prior year). -/
def prevMonthOf (currentYear currentMonth : Nat) : Nat × Nat :=
  if currentMonth = 1 then (currentYear - 1, 12) else (currentYear, currentMonth - 1)

/-- JS object spread `{...current, ...newConfig}`: keys of `current` in
order with values overridden by `newConfig`, then the fresh keys of
`newConfig` in order. -/
def omerge (current newConfig : List (String × JVal)) : List (String × JVal) :=
  (current.map (fun p => (p.1, ((olookup newConfig p.1).getD p.2))))
    ++ newConfig.filter (fun p => ¬ (olookup current p.1).isSome)

/-- Model of `updateCompanyConfig`: load, shallow-merge the update over the current
config, store the merged object in the cache and in `config.json`, advance
the metadata, and return it. -/
def updateCompanyConfig (s : DMState) (cid : String)
    (newConfig : List (String × JVal)) (now : Nat) :
    DMState × List (String × JVal) :=
  let s1 := loadCompany s cid
  let current := ((olookup s1.cacheCompanies cid).getD ⟨[], []⟩).config
  let updated := omerge current newConfig
  let s2 := modifyCacheCompany s1 cid (fun cc => { cc with config := updated })
  let s3 := setDiskConfig s2 cid updated
  (updateLastWriteTime s3 now, updated)

/-- The (year, month) keys of the shard files of company `cid` on disk in
state `s` that are cold for the given clock, i.e. the files the retention
sweep unlinks (and whose cache keys it deletes). -/
def coldDiskKeys (s : DMState) (currentYear currentMonth : Nat) (cid : String) :
    List (Nat × Nat) :=
  match olookup s.diskCompanies cid with
  | some dc => (dc.shards.map Prod.fst).filter
      (fun k => ¬ isHotMonth currentYear currentMonth k.1 k.2)
  | none => []

/-- Model of `cleanupOldMonths`: walk the on-disk `companies` tree and, for every
month file whose (year, month) is not hot, unlink the file and delete the
matching `CACHE.companies[cid].shifts` entry. Cache keys whose file is not
on disk are not visited. -/
def cleanupOldMonths (s : DMState) (currentYear currentMonth : Nat) : DMState :=
  let keepDisk := fun (q : (Nat × Nat) × Shard) =>
    isHotMonth currentYear currentMonth q.1.1 q.1.2
  let diskCompanies' := s.diskCompanies.map
    (fun p => (p.1, { p.2 with shards := p.2.shards.filter keepDisk }))
  let keepCache := fun (cid : String) (q : (Nat × Nat) × Shard) =>
    !(!(isHotMonth currentYear currentMonth q.1.1 q.1.2)
        && decide (q.1 ∈ coldDiskKeys s currentYear currentMonth cid))
  let cacheCompanies' := s.cacheCompanies.map
    (fun p => (p.1, { p.2 with shifts := p.2.shifts.filter (keepCache p.1) }))
  { s with diskCompanies := diskCompanies', cacheCompanies := cacheCompanies' }

/-- The payload `getBackupData` builds: an ISO timestamp (modelled as the
millisecond clock), the last write time, and the cached clients and
companies. -/
structure BackupOut where
  timestamp : Nat
  lastWriteTime : Nat
  clients : JVal
  companies : List (String × CompanyCache)
deriving DecidableEq, Repr

/-- Model of `getBackupData` (`src/services/DataManager.js` lines 460-471): return
the last write time plus `CACHE.clients` and, per cached company, its
`{config, shifts}`. The method performs no writes, so the state component
of the result is the input state. -/
def getBackupData (s : DMState) (now : Nat) : DMState × BackupOut :=
  (s, { timestamp := now
        lastWriteTime := getLastWriteTime s
        clients := s.clients
        companies := s.cacheCompanies.map (fun p => (p.1, ⟨p.2.config, p.2.shifts⟩)) })

/-- The fresh-cache probe at the top of `fetchColdData`: the cached data
when an entry exists whose age is under one hour. -/
def coldCacheHit (s : DMState) (cid : String) (k : Nat × Nat) (now : Nat) :
    Option JVal :=
  match olookup ((olookup s.historical cid).getD []) k with
  | some (data, fetchedAt) => if now - fetchedAt < 3600000 then some data else none
  | none => none

/-- The assignment into `CACHE.historicalData` performed on a successful cold
fetch (creating the per-company object on demand). -/
def coldStore (s : DMState) (cid : String) (k : Nat × Nat) (data : JVal)
    (now : Nat) : DMState :=
  let hist' := oset s.historical cid (oset ((olookup s.historical cid).getD []) k (data, now))
  { s with historical := hist' }

/-- Model of `fetchColdData` with the remote call made explicit: `gasConfigured` is
whether `GAS_COLD_STORAGE_URL` is set and `remote` the outcome of the
`axios.get` (`none` = network/remote failure). Returns the new state, the
returned mapping, and how many remote requests were issued (0 or 1). -/
def fetchColdData (s : DMState) (cid : String) (y m : Nat) (now : Nat)
    (gasConfigured : Bool) (remote : Option JVal) : DMState × JVal × Nat :=
  match coldCacheHit s cid (y, m) now with
  | some data => (s, data, 0)
  | none =>
    if ¬ gasConfigured then (s, JVal.jobj JObj.nil, 0)
    else
      match remote with
      | some data => (coldStore s cid (y, m) data now, data, 1)
      | none => (s, JVal.jobj JObj.nil, 1)

/-- One company's part of the restore payload
(`backup.companies[cid] = {config?, shifts?}`). -/
structure CompanyBackup where
  config : Option (List (String × JVal))
  shifts : Option (List ((Nat × Nat) × Shard))
deriving DecidableEq, Repr

/-- The restore payload `response.data.data` consumed by
`smartRestoreFromGAS`: optional `clients`, optional `companies` map, and
`metadata.lastWriteTime` (`none` = no `metadata` object, read as 0). -/
structure Backup where
  clients : Option JVal
  companies : Option (List (String × CompanyBackup))
  metadataTime : Option Nat
deriving DecidableEq, Repr

/-- The per-key shard restore loop: write each month file, then update the
company's cache entry — which throws (modelled as `Except.error` carrying
the partially written state) when the company is absent from the cache. -/
def restoreShiftEntries (s : DMState) (cid : String)
    (entries : List ((Nat × Nat) × Shard)) : Except DMState DMState :=
  match entries with
  | [] => Except.ok s
  | (k, sh) :: rest =>
    let s1 := setDiskShard s cid k sh
    match olookup s1.cacheCompanies cid with
    | none => Except.error s1
    | some _ =>
      let s2 := modifyCacheCompany s1 cid
        (fun cc => { cc with shifts := oset cc.shifts k sh })
      restoreShiftEntries s2 cid rest

/-- Restore one company from the payload: create its directory, write
`config.json` and mirror it into the cache when present, then restore the
shard files. -/
def restoreCompany (s : DMState) (cid : String) (cb : CompanyBackup) :
    Except DMState DMState :=
  let s1 := ensureDiskCompany s cid
  let s2 :=
    match cb.config with
    | some cfg => modifyCacheCompany (setDiskConfig s1 cid cfg) cid
        (fun cc => { cc with config := cfg })
    | none => s1
  match cb.shifts with
  | some entries => restoreShiftEntries s2 cid entries
  | none => Except.ok s2

/-- Fold `restoreCompany` over `Object.entries(backup.companies)`. -/
def restoreCompanies (s : DMState) (l : List (String × CompanyBackup)) :
    Except DMState DMState :=
  match l with
  | [] => Except.ok s
  | (cid, cb) :: rest =>
    match restoreCompany s cid cb with
    | Except.error e => Except.error e
    | Except.ok s1 => restoreCompanies s1 rest

/-- Model of `smartRestoreFromGAS` (`src/services/DataManager.js` lines 496-537):
skip when the URL is unset or the fetch fails; skip (returning `true`) when
`localTime > 0 && localTime >= remoteTime`; otherwise restore clients and
companies from the payload and, when `remoteTime > 0`, set the metadata
file to `remoteTime`. A missing `companies` object or a thrown cache update
is caught and yields `false` with the partial writes kept. -/
def smartRestoreFromGAS (s : DMState) (localTime : Nat) (gasConfigured : Bool)
    (resp : Option Backup) : DMState × Bool :=
  if ¬ gasConfigured then (s, false)
  else
    match resp with
    | none => (s, false)
    | some backup =>
      let remoteTime := backup.metadataTime.getD 0
      if 0 < localTime ∧ remoteTime ≤ localTime then (s, true)
      else
        let s1 :=
          match backup.clients with
          | some c => { s with clients := c, diskClients := some c }
          | none => s
        match backup.companies with
        | none => (s1, false)
        | some l =>
          match restoreCompanies s1 l with
          | Except.error e => (e, false)
          | Except.ok s2 =>
            if 0 < remoteTime then ({ s2 with diskMetadata := some remoteTime }, true)
            else (s2, true)

/-- Model of `saveAdminSettings`: build the updates object (plus `adminEmail` when truthy)
and delegate to `updateCompanyConfig`. -/
def saveAdminSettings (s : DMState) (cid : String) (settings : JVal)
    (adminEmail : Option String) (now : Nat) : DMState × List (String × JVal) :=
  let updates :=
    match adminEmail with
    | some e => if e ≠ "" then [("settings", settings), ("adminEmail", JVal.jstr e)]
                else [("settings", settings)]
    | none => [("settings", settings)]
  updateCompanyConfig s cid updates now

theorem isHotMonth_eq_true_iff (cy cm y m : Nat) :
    isHotMonth cy cm y m = true ↔
      ((y = cy ∧ m = cm) ∨
        (y = (if cm = 1 then cy - 1 else cy) ∧ m = (if cm = 1 then 12 else cm - 1))) := by
  unfold isHotMonth
  by_cases h1 : y = cy ∧ m = cm
  · simp [h1]
  · simp only [if_neg h1, decide_eq_true_eq]
    by_cases hc : cm = 1
    · subst hc
      simp only [if_pos rfl]
      tauto
    · simp only [if_neg hc]
      tauto

/-- C3: for a wall clock at (currentYear, currentMonth), `isHotMonth` is
true for exactly the current pair and the immediately preceding calendar
month, January wrapping to December of the previous year. -/
theorem isHotMonth_exactly_two (currentYear currentMonth : Nat)
    (hm1 : 1 ≤ currentMonth) (hm2 : currentMonth ≤ 12) (hy : 1 ≤ currentYear) :
    (∀ year month, isHotMonth currentYear currentMonth year month = true ↔
      ((year, month) = (currentYear, currentMonth)
        ∨ (year, month) = prevMonthOf currentYear currentMonth))
    ∧ prevMonthOf currentYear currentMonth ≠ (currentYear, currentMonth) := by
  constructor
  · intro year month
    rw [isHotMonth_eq_true_iff]
    unfold prevMonthOf
    by_cases hc : currentMonth = 1
    · simp [hc, Prod.ext_iff]
    · simp [hc, Prod.ext_iff]
  · unfold prevMonthOf
    by_cases hc : currentMonth = 1
    · simp [hc]
    · simp only [if_neg hc, ne_eq, Prod.mk.injEq, not_and]
      intro _
      omega

/-- Witness for C3 at the clock (2025, 1): December 2024 is hot. -/
theorem isHotMonth_exactly_two_witness :
    isHotMonth 2025 1 2024 12 = true :=
  ((isHotMonth_exactly_two 2025 1 (by decide) (by decide) (by decide)).1 2024 12).mpr
    (Or.inr (by decide))

/-- C8: `saveShifts` followed by a `getShifts` on a state whose company
cache has been cleared returns a shard equal to the one saved. -/
theorem saveShifts_getShifts_roundtrip (s : DMState) (cid : String) (y m : Nat)
    (S : Shard) (now : Nat) :
    (getShifts { saveShifts s cid y m S now with cacheCompanies := [] } cid y m).2
      = S := by
  unfold getShifts loadCompany diskShardOf diskConfigOf saveShifts setDiskShard
  unfold updateLastWriteTime modifyCacheCompany modifyDiskCompany ensureDiskCompany
  simp [olookup, olookup_oset_self, oset]

theorem olookup_omerge (current newConfig : List (String × JVal)) (k : String) :
    olookup (omerge current newConfig) k =
      match olookup newConfig k with
      | some v => some v
      | none => olookup current k := by
  unfold omerge
  rw [olookup_append]
  rw [olookup_map current (fun k v => (olookup newConfig k).getD v) k]
  cases hcur : olookup current k with
  | none =>
    simp only [Option.map_none']
    rw [olookup_filter_keep]
    · cases olookup newConfig k <;> rfl
    · intro v
      simp [hcur]
  | some w =>
    simp only [Option.map_some']
    cases hnew : olookup newConfig k with
    | none => simp [hnew]
    | some v => simp [hnew]

/-- The config `updateCompanyConfig` starts from: the cached one, or the
one `loadCompany` reads from disk (with the `{companyId, settings: {}}`
default). -/
def currentConfigOf (s : DMState) (cid : String) : List (String × JVal) :=
  ((olookup (loadCompany s cid).cacheCompanies cid).getD ⟨[], []⟩).config

theorem loadCompany_idem_cache (s : DMState) (cid : String) :
    olookup (loadCompany (loadCompany s cid) cid).cacheCompanies cid
      = olookup (loadCompany s cid).cacheCompanies cid := by
  unfold loadCompany
  by_cases h : (olookup s.cacheCompanies cid).isSome
  · simp [h]
  · simp only [h, if_false, Bool.false_eq_true]
    simp [ensureDiskCompany, olookup_oset_self]

/-- C9: `updateCompanyConfig` merges at the top level only — a key of the
update replaces the existing value wholesale, any other key keeps its
value — and `saveAdminSettings` consequently replaces the whole `settings`
object with the supplied one. -/
theorem updateCompanyConfig_toplevel_merge :
    (∀ (s : DMState) (cid : String) (newConfig : List (String × JVal))
        (now : Nat) (k : String),
      olookup (updateCompanyConfig s cid newConfig now).2 k =
        match olookup newConfig k with
        | some v => some v
        | none => olookup (currentConfigOf s cid) k)
    ∧ (∀ (s : DMState) (cid : String) (settings : JVal)
        (adminEmail : Option String) (now : Nat),
      olookup (saveAdminSettings s cid settings adminEmail now).2 "settings"
        = some settings) := by
  constructor
  · intro s cid newConfig now k
    unfold updateCompanyConfig currentConfigOf
    simp only
    rw [olookup_omerge]
  · intro s cid settings adminEmail now
    unfold saveAdminSettings updateCompanyConfig
    simp only
    rw [olookup_omerge]
    cases adminEmail with
    | none => simp [olookup]
    | some e =>
      by_cases he : e = ""
      · simp [he, olookup]
      · simp [he, olookup]

/-- A completely fresh store: empty caches, nothing on disk. -/
def stEmpty : DMState :=
  { clients := JVal.jarr JArr.nil
    cacheCompanies := []
    historical := []
    diskClients := none
    diskMetadata := none
    diskCompanies := [] }

/-- One recorded `logShift` call for a fixed employee. -/
structure ShiftCall where
  action : String
  ts : Nat
  location : Option String
  note : Option String
deriving DecidableEq, Repr

/-- The employee's sequence is empty or ends in an entry whose end is
non-null. -/
def seqEndClosed (seq : List ShiftEntry) : Bool :=
  match seq.getLast? with
  | none => true
  | some e => e.«end».isSome

/-- Every entry except possibly the last has a non-null end — i.e. at most
one entry is open and it is the last one. -/
def nonLastClosed (seq : List ShiftEntry) : Prop :=
  ∀ e ∈ seq.dropLast, e.«end» ≠ none

/-- The number of entries with a null end. -/
def openEntries (seq : List ShiftEntry) : Nat :=
  (seq.filter (fun e => e.«end».isNone)).length

theorem applyAction_in_eq (seq : List ShiftEntry) (ts : Nat)
    (location note : Option String) :
    applyAction seq "IN" ts location note =
      seq ++ [{ start := some ts, «end» := none, location := location, note := none }] := by
  unfold applyAction
  rw [if_pos rfl]

theorem applyAction_out_nil_eq (seq : List ShiftEntry) (ts : Nat)
    (location note : Option String) (hl : seq.getLast? = none) :
    applyAction seq "OUT" ts location note =
      seq ++ [{ start := none, «end» := some ts, location := none,
                note := some "Manual Out without In" }] := by
  unfold applyAction
  rw [if_neg (by decide), if_pos rfl, hl]

theorem applyAction_out_close_eq (seq : List ShiftEntry) (ts : Nat)
    (location note : Option String) (lastShift : ShiftEntry)
    (hl : seq.getLast? = some lastShift) (hf : endFalsy lastShift.«end» = true) :
    applyAction seq "OUT" ts location note =
      seq.dropLast ++
        [{ lastShift with
            «end» := some ts
            note := if noteTruthy note then note else lastShift.note }] := by
  unfold applyAction
  rw [if_neg (by decide), if_pos rfl, hl]
  exact if_pos hf

theorem applyAction_out_manual_eq (seq : List ShiftEntry) (ts : Nat)
    (location note : Option String) (lastShift : ShiftEntry)
    (hl : seq.getLast? = some lastShift) (hf : endFalsy lastShift.«end» = false) :
    applyAction seq "OUT" ts location note =
      seq ++ [{ start := none, «end» := some ts, location := none,
                note := some "Manual Out without In" }] := by
  unfold applyAction
  rw [if_neg (by decide), if_pos rfl, hl]
  simp only [hf, Bool.false_eq_true, if_false]

theorem applyAction_other_eq (seq : List ShiftEntry) (action : String) (ts : Nat)
    (location note : Option String) (h1 : action ≠ "IN") (h2 : action ≠ "OUT") :
    applyAction seq action ts location note = seq := by
  unfold applyAction
  rw [if_neg h1, if_neg h2]

theorem nonLastClosed_concat_of_all (seq : List ShiftEntry) (a : ShiftEntry)
    (h : ∀ e ∈ seq, e.«end» ≠ none) : nonLastClosed (seq ++ [a]) := by
  intro e he
  rw [List.dropLast_concat] at he
  exact h e he

theorem nonLastClosed_all_of_closed_last (seq : List ShiftEntry)
    (hInv : nonLastClosed seq) (hG : seqEndClosed seq = true) :
    ∀ e ∈ seq, e.«end» ≠ none := by
  rcases List.eq_nil_or_concat seq with hnil | ⟨l, a, rfl⟩
  · subst hnil
    intro e he
    simp at he
  · rw [List.concat_eq_append] at hInv hG ⊢
    intro e he
    rcases (List.mem_append.mp he) with h | h
    · refine hInv e ?_
      rw [List.dropLast_concat]
      exact h
    · simp only [List.mem_singleton] at h
      subst h
      unfold seqEndClosed at hG
      rw [List.getLast?_concat] at hG
      simpa [Option.isSome_iff_ne_none] using hG

theorem applyAction_preserves_nonLastClosed (seq : List ShiftEntry)
    (action : String) (ts : Nat) (location note : Option String)
    (hInv : nonLastClosed seq)
    (hG : action = "IN" → seqEndClosed seq = true) :
    nonLastClosed (applyAction seq action ts location note) := by
  by_cases hin : action = "IN"
  · subst hin
    rw [applyAction_in_eq]
    exact nonLastClosed_concat_of_all seq _ (nonLastClosed_all_of_closed_last seq hInv (hG rfl))
  · by_cases hout : action = "OUT"
    · subst hout
      cases hlast : seq.getLast? with
      | none =>
        rw [applyAction_out_nil_eq seq ts location note hlast]
        have : seq = [] := List.getLast?_eq_none_iff.mp hlast
        subst this
        intro e he
        simp at he
      | some lastShift =>
        cases hf : endFalsy lastShift.«end» with
        | true =>
          rw [applyAction_out_close_eq seq ts location note lastShift hlast hf]
          intro e he
          rw [List.dropLast_concat] at he
          exact hInv e he
        | false =>
          rw [applyAction_out_manual_eq seq ts location note lastShift hlast hf]
          refine nonLastClosed_concat_of_all seq _ ?_
          refine nonLastClosed_all_of_closed_last seq hInv ?_
          unfold seqEndClosed
          rw [hlast]
          cases hend : lastShift.«end» with
          | none =>
            rw [hend] at hf
            simp [endFalsy] at hf
          | some n => simp [hend]
    · rw [applyAction_other_eq seq action ts location note hin hout]
      exact hInv

theorem openEntries_le_one_of_nonLastClosed (seq : List ShiftEntry)
    (h : nonLastClosed seq) : openEntries seq ≤ 1 := by
  rcases List.eq_nil_or_concat seq with hnil | ⟨l, a, rfl⟩
  · subst hnil
    simp [openEntries]
  · rw [List.concat_eq_append] at h ⊢
    unfold openEntries
    rw [List.filter_append]
    have hl : l.filter (fun e => e.«end».isNone) = [] := by
      rw [List.filter_eq_nil_iff]
      intro e he
      have := h e (by rwa [List.dropLast_concat])
      simpa [Option.isNone_iff_eq_none] using this
    rw [hl]
    simp only [List.nil_append]
    cases ha : a.«end».isNone <;> simp [List.filter, ha]

/-- Counterexample to C2 as stated: two consecutive `IN` punches from an
empty shard leave the employee with two entries whose end is null (and the
first of them is not the last entry). -/
theorem logShift_double_in_counterexample :
    ¬ (openEntries ((olookup
        ((cacheShardOf
          (logShift (logShift stEmpty "c1" "dana" "IN" 1000 none none 11).1
            "c1" "dana" "IN" 2000 none none 12).1
          "c1" (1970, 1)).getD [])
        "dana").getD []) ≤ 1) := by decide

theorem saveShifts_effects (s : DMState) (cid : String) (y m : Nat)
    (sh : Shard) (now : Nat) :
    cacheShardOf (saveShifts s cid y m sh now) cid (y, m) = some sh
    ∧ diskShardOf (saveShifts s cid y m sh now) cid (y, m) = some sh
    ∧ (saveShifts s cid y m sh now).diskMetadata = some now := by
  unfold saveShifts updateLastWriteTime setDiskShard modifyDiskCompany
  unfold modifyCacheCompany cacheShardOf diskShardOf loadCompany ensureDiskCompany
  by_cases h : (olookup s.cacheCompanies cid).isSome
  · simp [h, olookup_oset_self]
  · by_cases hd : (olookup s.diskCompanies cid).isSome
    · simp [h, hd, olookup_oset_self]
    · simp [h, hd, olookup_oset_self]

/-- The employee's sequence in the (timestamp-routed) shard read by
`logShift` before the punch. -/
def empSeqBeforeLog (s : DMState) (cid emp : String) (ts : Nat) :
    List ShiftEntry :=
  (olookup (getShifts s cid (ymOfTs ts).1 (ymOfTs ts).2).2 emp).getD []

/-- The employee's sequence in the cached shard of the timestamp's month
after a `logShift` call. -/
def empSeqAfterLog (s : DMState) (cid emp action : String) (ts : Nat)
    (loc note : Option String) (now : Nat) : List ShiftEntry :=
  (olookup ((cacheShardOf (logShift s cid emp action ts loc note now).1
    cid (ymOfTs ts)).getD []) emp).getD []

theorem logShift_cacheShard_eq (s : DMState) (cid emp action : String)
    (ts : Nat) (loc note : Option String) (now : Nat) :
    cacheShardOf (logShift s cid emp action ts loc note now).1 cid (ymOfTs ts)
      = some (oset
          (if olookup (getShifts s cid (ymOfTs ts).1 (ymOfTs ts).2).2 emp = none
            then oset (getShifts s cid (ymOfTs ts).1 (ymOfTs ts).2).2 emp []
            else (getShifts s cid (ymOfTs ts).1 (ymOfTs ts).2).2)
          emp
          (applyAction (empSeqBeforeLog s cid emp ts) action ts loc note)) := by
  unfold logShift empSeqBeforeLog
  dsimp only
  cases hemp : olookup (getShifts s cid (ymOfTs ts).1 (ymOfTs ts).2).2 emp with
  | none =>
    rw [if_pos rfl]
    simp only [olookup_oset_self, Option.getD_some, Option.getD_none]
    exact (saveShifts_effects _ cid (ymOfTs ts).1 (ymOfTs ts).2 _ now).1
  | some v =>
    rw [if_neg (fun h => Option.noConfusion h), hemp]
    simp only [Option.getD_some]
    exact (saveShifts_effects _ cid (ymOfTs ts).1 (ymOfTs ts).2 _ now).1

theorem logShift_diskShard_eq (s : DMState) (cid emp action : String)
    (ts : Nat) (loc note : Option String) (now : Nat) :
    diskShardOf (logShift s cid emp action ts loc note now).1 cid (ymOfTs ts)
      = cacheShardOf (logShift s cid emp action ts loc note now).1 cid (ymOfTs ts) := by
  unfold logShift
  have h := saveShifts_effects (getShifts s cid (ymOfTs ts).1 (ymOfTs ts).2).1
    cid (ymOfTs ts).1 (ymOfTs ts).2
    (oset
      (if olookup (getShifts s cid (ymOfTs ts).1 (ymOfTs ts).2).2 emp = none
        then oset (getShifts s cid (ymOfTs ts).1 (ymOfTs ts).2).2 emp []
        else (getShifts s cid (ymOfTs ts).1 (ymOfTs ts).2).2)
      emp
      (applyAction ((olookup
        (if olookup (getShifts s cid (ymOfTs ts).1 (ymOfTs ts).2).2 emp = none
          then oset (getShifts s cid (ymOfTs ts).1 (ymOfTs ts).2).2 emp []
          else (getShifts s cid (ymOfTs ts).1 (ymOfTs ts).2).2) emp).getD [])
        action ts loc note)) now
  simp only
  rw [h.2.1, h.1]

theorem empSeqAfterLog_eq (s : DMState) (cid emp action : String) (ts : Nat)
    (loc note : Option String) (now : Nat) :
    empSeqAfterLog s cid emp action ts loc note now
      = applyAction (empSeqBeforeLog s cid emp ts) action ts loc note := by
  unfold empSeqAfterLog
  rw [logShift_cacheShard_eq]
  simp [olookup_oset_self]

theorem logShift_other_emp (s : DMState) (cid emp action : String) (ts : Nat)
    (loc note : Option String) (now : Nat) (e : String) (he : e ≠ emp) :
    olookup ((cacheShardOf (logShift s cid emp action ts loc note now).1
        cid (ymOfTs ts)).getD []) e
      = olookup (getShifts s cid (ymOfTs ts).1 (ymOfTs ts).2).2 e := by
  rw [logShift_cacheShard_eq]
  simp only [Option.getD_some]
  rw [olookup_oset_ne _ emp e _ (fun hx => he hx.symm)]
  cases hemp : olookup (getShifts s cid (ymOfTs ts).1 (ymOfTs ts).2).2 emp with
  | none =>
    rw [if_pos rfl]
    exact olookup_oset_ne _ emp e _ (fun hx => he hx.symm)
  | some v =>
    rw [if_neg (fun h => Option.noConfusion h)]

theorem logShift_meta (s : DMState) (cid emp action : String) (ts : Nat)
    (loc note : Option String) (now : Nat) :
    (logShift s cid emp action ts loc note now).1.diskMetadata = some now := by
  unfold logShift
  simp only
  exact (saveShifts_effects _ _ _ _ _ _).2.2

/-- C4 (amended): `logShift` appends an open entry on `IN`; on `OUT` it
closes the employee's last entry when that entry's end is falsy (null or
the timestamp 0) — not only when it is null — and otherwise appends a
closed `"Manual Out without In"` entry with a null start; all of it in the
shard of the timestamp's (year, month), mirrored to disk. An `OUT` is never
rejected. -/
theorem logShift_append_close_spec (s : DMState) (cid emp : String)
    (action : String) (ts : Nat) (loc note : Option String) (now : Nat) :
    (logShift s cid emp action ts loc note now).2 = true
    ∧ diskShardOf (logShift s cid emp action ts loc note now).1 cid (ymOfTs ts)
        = cacheShardOf (logShift s cid emp action ts loc note now).1 cid (ymOfTs ts)
    ∧ (action = "IN" →
        empSeqAfterLog s cid emp action ts loc note now
          = empSeqBeforeLog s cid emp ts
              ++ [{ start := some ts, «end» := none, location := loc, note := none }])
    ∧ (action = "OUT" →
        ((empSeqBeforeLog s cid emp ts).getLast? = none →
          empSeqAfterLog s cid emp action ts loc note now
            = empSeqBeforeLog s cid emp ts
                ++ [{ start := none, «end» := some ts, location := none,
                      note := some "Manual Out without In" }])
        ∧ (∀ lastShift, (empSeqBeforeLog s cid emp ts).getLast? = some lastShift →
            (endFalsy lastShift.«end» = true →
              empSeqAfterLog s cid emp action ts loc note now
                = (empSeqBeforeLog s cid emp ts).dropLast
                    ++ [{ lastShift with
                          «end» := some ts
                          note := if noteTruthy note then note else lastShift.note }])
            ∧ (endFalsy lastShift.«end» = false →
              empSeqAfterLog s cid emp action ts loc note now
                = empSeqBeforeLog s cid emp ts
                    ++ [{ start := none, «end» := some ts, location := none,
                          note := some "Manual Out without In" }]))) := by
  refine ⟨rfl, logShift_diskShard_eq s cid emp action ts loc note now, ?_, ?_⟩
  · intro hin
    subst hin
    rw [empSeqAfterLog_eq, applyAction_in_eq]
  · intro hout
    subst hout
    constructor
    · intro hl
      rw [empSeqAfterLog_eq, applyAction_out_nil_eq _ _ _ _ hl]
    · intro lastShift hl
      constructor
      · intro hf
        rw [empSeqAfterLog_eq, applyAction_out_close_eq _ _ _ _ lastShift hl hf]
      · intro hf
        rw [empSeqAfterLog_eq, applyAction_out_manual_eq _ _ _ _ lastShift hl hf]

/-- Witness for the amended C4: a concrete `IN` then `OUT` produces a
single closed pair. -/
theorem logShift_append_close_spec_witness :
    empSeqAfterLog (logShift stEmpty "c1" "dana" "IN" 1000 none none 7).1
      "c1" "dana" "OUT" 2000 none none 8
      = [{ start := some 1000, «end» := some 2000, location := none, note := none }] := by
  have h := logShift_append_close_spec (logShift stEmpty "c1" "dana" "IN" 1000 none none 7).1
    "c1" "dana" "OUT" 2000 none none 8
  have h2 := ((h.2.2.2 rfl).2
    { start := some 1000, «end» := none, location := none, note := none } (by decide)).1 (by decide)
  rw [h2]
  decide

/-- The state used in the C4 counterexample: employee `"eve"` has, in the
January 1970 shard, one entry whose end is the (non-null) timestamp 0. -/
def stZeroEnd : DMState :=
  { clients := JVal.jarr JArr.nil
    cacheCompanies :=
      [("c1", { config := []
                shifts := [((1970, 1),
                  [("eve", [{ start := some 5, «end» := some 0,
                              location := none, note := none }])])] })]
    historical := []
    diskClients := none
    diskMetadata := none
    diskCompanies := [] }

/-- Counterexample to C4 as stated: with a last entry whose end is the
non-null timestamp `some 0`, an `OUT` does not append the closed
`"Manual Out without In"` entry the claim requires — it overwrites the
existing end (JS `!lastShift.end` tests falsiness, not null-ness). -/
theorem logShift_out_zero_end_counterexample :
    empSeqBeforeLog stZeroEnd "c1" "eve" 7000
      = [{ start := some 5, «end» := some 0, location := none, note := none }]
    ∧ ¬ (empSeqAfterLog stZeroEnd "c1" "eve" "OUT" 7000 none none 9
          = [{ start := some 5, «end» := some 0, location := none, note := none },
             { start := none, «end» := some 7000, location := none,
               note := some "Manual Out without In" }]) := by decide

/-- The shard-level state read out after a `logShift`, for the frame
statement: the cached shard of the timestamp's month. -/
def shardAfterLog (s : DMState) (cid emp action : String) (ts : Nat)
    (loc note : Option String) (now : Nat) : Shard :=
  (cacheShardOf (logShift s cid emp action ts loc note now).1 cid (ymOfTs ts)).getD []

/-- C10: for any action other than `IN`/`OUT`, `logShift` appends nothing,
still materialises the employee's key (empty sequence if absent), writes
the shard back to cache and disk, sets the write-time metadata to the call
time, returns success, and leaves every other employee's sequence
unchanged. -/
theorem logShift_unknown_action_frame (s : DMState) (cid emp action : String)
    (ts : Nat) (loc note : Option String) (now : Nat)
    (h1 : action ≠ "IN") (h2 : action ≠ "OUT") :
    (logShift s cid emp action ts loc note now).2 = true
    ∧ olookup (shardAfterLog s cid emp action ts loc note now) emp
        = some (empSeqBeforeLog s cid emp ts)
    ∧ (∀ e, e ≠ emp → olookup (shardAfterLog s cid emp action ts loc note now) e
        = olookup (getShifts s cid (ymOfTs ts).1 (ymOfTs ts).2).2 e)
    ∧ diskShardOf (logShift s cid emp action ts loc note now).1 cid (ymOfTs ts)
        = cacheShardOf (logShift s cid emp action ts loc note now).1 cid (ymOfTs ts)
    ∧ (logShift s cid emp action ts loc note now).1.diskMetadata = some now := by
  refine ⟨rfl, ?_, ?_, logShift_diskShard_eq s cid emp action ts loc note now,
    logShift_meta s cid emp action ts loc note now⟩
  · unfold shardAfterLog
    rw [logShift_cacheShard_eq]
    simp only [Option.getD_some]
    rw [olookup_oset_self]
    rw [applyAction_other_eq _ action ts loc note h1 h2]
  · intro e he
    unfold shardAfterLog
    exact logShift_other_emp s cid emp action ts loc note now e he

/-- Witness for C10 with the unknown action `"PING"` on a fresh store. -/
theorem logShift_unknown_action_frame_witness :
    olookup (shardAfterLog stEmpty "c1" "dana" "PING" 1000 none none 5) "dana"
      = some [] :=
  (logShift_unknown_action_frame stEmpty "c1" "dana" "PING" 1000 none none 5
    (by decide) (by decide)).2.1

theorem coldCacheHit_coldStore (s : DMState) (cid : String) (k : Nat × Nat)
    (data : JVal) (now now' : Nat) :
    coldCacheHit (coldStore s cid k data now) cid k now'
      = if now' - now < 3600000 then some data else none := by
  unfold coldCacheHit coldStore
  dsimp only
  rw [olookup_oset_self, Option.getD_some, olookup_oset_self]

/-- C5 (amended): a cache entry younger than one hour is served without a
remote call; on a miss (with the URL configured) exactly one remote request
is issued — caching `{data, now}` and returning the data on success,
returning the empty mapping on failure. Two fetches within the hour issue
one remote call in total provided the first succeeds (a failed fetch caches
nothing, so a retry issues a second call); a fetch after the TTL issues a
new request. -/
theorem fetchColdData_ttl_spec (s : DMState) (cid : String) (y m : Nat)
    (now : Nat) (remote : Option JVal) :
    (∀ data fetchedAt,
      olookup ((olookup s.historical cid).getD []) (y, m) = some (data, fetchedAt) →
      now - fetchedAt < 3600000 →
      fetchColdData s cid y m now true remote = (s, data, 0))
    ∧ (coldCacheHit s cid (y, m) now = none →
        (fetchColdData s cid y m now true remote).2.2 = 1
        ∧ (remote = none →
            fetchColdData s cid y m now true remote = (s, JVal.jobj JObj.nil, 1))
        ∧ (∀ d, remote = some d →
            fetchColdData s cid y m now true remote
                = (coldStore s cid (y, m) d now, d, 1)
            ∧ olookup ((olookup (coldStore s cid (y, m) d now).historical
                cid).getD []) (y, m) = some (d, now)
            ∧ (∀ now2 remote2, now2 - now < 3600000 →
                fetchColdData (coldStore s cid (y, m) d now)
                  cid y m now2 true remote2
                  = (coldStore s cid (y, m) d now, d, 0))
            ∧ (∀ now3 remote3, 3600000 ≤ now3 - now →
                (fetchColdData (coldStore s cid (y, m) d now)
                  cid y m now3 true remote3).2.2 = 1))) := by
  constructor
  · intro data fetchedAt hentry hfresh
    unfold fetchColdData coldCacheHit
    rw [hentry]
    dsimp only
    rw [if_pos hfresh]
  · intro hmiss
    have hcase : ∀ r, fetchColdData s cid y m now true r =
        match r with
        | some data => (coldStore s cid (y, m) data now, data, 1)
        | none => (s, JVal.jobj JObj.nil, 1) := by
      intro r
      unfold fetchColdData
      rw [hmiss]
      dsimp only
      rw [if_neg (fun h => h rfl)]
    refine ⟨?_, ?_, ?_⟩
    · rw [hcase remote]
      cases remote <;> rfl
    · intro hr
      subst hr
      exact hcase none
    · intro d hr
      subst hr
      refine ⟨hcase (some d), ?_, ?_, ?_⟩
      · unfold coldStore
        dsimp only
        rw [olookup_oset_self, Option.getD_some, olookup_oset_self]
      · intro now2 remote2 hfresh2
        unfold fetchColdData
        rw [coldCacheHit_coldStore, if_pos hfresh2]
      · intro now3 remote3 hstale
        unfold fetchColdData
        rw [coldCacheHit_coldStore, if_neg (by omega)]
        dsimp only
        rw [if_neg (fun h => h rfl)]
        cases remote3 <;> rfl

/-- Witness for the amended C5: a successful fetch followed by a re-fetch
within the hour issues no second remote call and returns the cached data. -/
theorem fetchColdData_ttl_spec_witness :
    fetchColdData (coldStore stEmpty "c1" (2020, 1) (JVal.jnum 42) 1000)
      "c1" 2020 1 2000 true none
      = (coldStore stEmpty "c1" (2020, 1) (JVal.jnum 42) 1000, JVal.jnum 42, 0) :=
  (((fetchColdData_ttl_spec stEmpty "c1" 2020 1 1000
    (some (JVal.jnum 42))).2 (by decide)).2.2 (JVal.jnum 42) rfl).2.2.1 2000 none (by decide)

/-- Counterexample to C5 as stated: when the remote archive is unavailable,
two fetches of the same cold period within one hour issue two remote
requests, not one — the failure result is not cached. -/
theorem fetchColdData_failure_two_calls_counterexample :
    ((2000 : Nat) - 1000 < 3600000)
    ∧ ¬ ((fetchColdData stEmpty "c1" 2020 1 1000 true none).2.2
          + (fetchColdData (fetchColdData stEmpty "c1" 2020 1 1000 true none).1
              "c1" 2020 1 2000 true none).2.2 = 1) := by decide

theorem olookup_map_entry [DecidableEq κ] (o : List (κ × α)) (f : κ × α → β) (k : κ) :
    olookup (o.map (fun p => (p.1, f p))) k = (olookup o k).map (fun v => f (k, v)) := by
  induction o with
  | nil => simp [olookup]
  | cons p rest ih =>
    by_cases h : p.1 = k
    · subst h
      simp [olookup]
    · simp [olookup, h, ih]

/-- C6 (amended): after the sweep no on-disk shard file remains for any
cold (year, month); every cold cache entry whose shard file was on disk is
evicted; hot shard files, hot cache entries, and config files are
untouched. (A cold cache entry with no on-disk file survives — see the
counterexample.) -/
theorem cleanupOldMonths_spec_thm (s : DMState) (cy cm : Nat) :
    (∀ cid k, isHotMonth cy cm k.1 k.2 = false →
      diskShardOf (cleanupOldMonths s cy cm) cid k = none)
    ∧ (∀ cid cc', olookup (cleanupOldMonths s cy cm).cacheCompanies cid = some cc' →
        ∀ k, isHotMonth cy cm k.1 k.2 = false → diskShardOf s cid k ≠ none →
          olookup cc'.shifts k = none)
    ∧ (∀ cid k, isHotMonth cy cm k.1 k.2 = true →
        diskShardOf (cleanupOldMonths s cy cm) cid k = diskShardOf s cid k
        ∧ cacheShardOf (cleanupOldMonths s cy cm) cid k = cacheShardOf s cid k)
    ∧ (∀ cid, diskConfigOf (cleanupOldMonths s cy cm) cid = diskConfigOf s cid) := by
  refine ⟨?_, ?_, ?_, ?_⟩
  · intro cid k hcold
    unfold diskShardOf cleanupOldMonths
    dsimp only
    rw [olookup_map_entry]
    cases hdc : olookup s.diskCompanies cid with
    | none => rfl
    | some dc =>
      simp only [Option.map_some', Option.bind_some]
      refine olookup_filter_drop dc.shards _ k ?_
      intro v
      simp [hcold]
  · intro cid cc' hcc k hcold hdisk
    unfold cleanupOldMonths at hcc
    dsimp only at hcc
    rw [olookup_map_entry] at hcc
    cases hsc : olookup s.cacheCompanies cid with
    | none =>
      rw [hsc] at hcc
      simp at hcc
    | some cc =>
      rw [hsc] at hcc
      simp only [Option.map_some', Option.some.injEq] at hcc
      subst hcc
      simp only
      refine olookup_filter_drop cc.shifts _ k ?_
      intro v
      have hmem : k ∈ coldDiskKeys s cy cm cid := by
        unfold diskShardOf at hdisk
        cases hdc : olookup s.diskCompanies cid with
        | none =>
          rw [hdc] at hdisk
          simp at hdisk
        | some dc =>
          rw [hdc] at hdisk
          cases hsh : olookup dc.shards k with
          | none => exact absurd hsh hdisk
          | some sh =>
            unfold coldDiskKeys
            rw [hdc]
            rw [List.mem_filter]
            refine ⟨olookup_mem_keys dc.shards k sh hsh, ?_⟩
            simp [hcold]
      simp [hcold, hmem]
  · intro cid k hhot
    constructor
    · unfold diskShardOf cleanupOldMonths
      dsimp only
      rw [olookup_map_entry]
      cases hdc : olookup s.diskCompanies cid with
      | none => rfl
      | some dc =>
        simp only [Option.map_some', Option.bind_some]
        refine olookup_filter_keep dc.shards _ k ?_
        intro v
        simp [hhot]
    · unfold cacheShardOf cleanupOldMonths
      dsimp only
      rw [olookup_map_entry]
      cases hsc : olookup s.cacheCompanies cid with
      | none => rfl
      | some cc =>
        simp only [Option.map_some', Option.bind_some]
        refine olookup_filter_keep cc.shifts _ k ?_
        intro v
        simp [hhot]
  · intro cid
    unfold diskConfigOf cleanupOldMonths
    dsimp only
    rw [olookup_map_entry]
    cases hdc : olookup s.diskCompanies cid with
    | none => rfl
    | some dc => rfl

/-- The state for the C6 counterexample and witness: one cached cold shard
whose file is not on disk, one cold and one hot shard on disk. -/
def stSweep : DMState :=
  { clients := JVal.jarr JArr.nil
    cacheCompanies :=
      [("c1", { config := [], shifts := [((2020, 3), [("eve", [])])] })]
    historical := []
    diskClients := none
    diskMetadata := none
    diskCompanies :=
      [("c2", { config := some []
                shards := [((2020, 4), [("bob", [])]), ((2025, 6), [("bob", [])])] })] }

/-- Witness for the amended C6 at the clock (2025, 6): company `"c2"`'s
cold April-2020 shard file is gone after the sweep. -/
theorem cleanupOldMonths_spec_witness :
    diskShardOf (cleanupOldMonths stSweep 2025 6) "c2" (2020, 4) = none :=
  (cleanupOldMonths_spec_thm stSweep 2025 6).1 "c2" (2020, 4) (by decide)

/-- Counterexample to C6 as stated: company `"c1"` has a cached shard for
the cold month (2020, 3) but no such file on disk; the sweep walks the disk
only, so after it the cold cache entry is still present, contradicting
"the corresponding in-process cache entry is absent" for every cold
(year, month). -/
theorem cleanupOldMonths_stale_cache_counterexample :
    isHotMonth 2025 6 2020 3 = false
    ∧ ¬ (cacheShardOf (cleanupOldMonths stSweep 2025 6) "c1" (2020, 3) = none) := by
  decide

/-- Modelled from the spec: §4.6 says `snapshot()` "walks the entire local
data tree, returning every JSON file's relative path and parsed content" —
for the per-company portion that is the on-disk tree (each company's
`config.json` and month-shard files), not the in-process cache. This
definition renders that reading of the companies portion for comparison
with what `getBackupData` actually returns. -/
def backupCompaniesFromDiskSpec (s : DMState) : List (String × CompanyCache) :=
  s.diskCompanies.map (fun p => (p.1, ⟨(p.2.config).getD [], p.2.shards⟩))

/-- C7 (amended): `getBackupData` returns the current write-time metadata,
the in-memory client list, and each loaded company's cached config and
month shards — the in-process cache contents, not a walk of the on-disk
tree — and it mutates no state. -/
theorem getBackupData_cache_snapshot (s : DMState) (now : Nat) :
    (getBackupData s now).1 = s
    ∧ (getBackupData s now).2.lastWriteTime = getLastWriteTime s
    ∧ (getBackupData s now).2.clients = s.clients
    ∧ (∀ cid, olookup (getBackupData s now).2.companies cid
        = olookup s.cacheCompanies cid) := by
  refine ⟨rfl, rfl, rfl, ?_⟩
  intro cid
  unfold getBackupData
  dsimp only
  rw [olookup_map_entry]
  cases olookup s.cacheCompanies cid <;> rfl

/-- The state for the C7 counterexample: data on disk, empty cache. -/
def stDiskOnly : DMState :=
  { clients := JVal.jarr JArr.nil
    cacheCompanies := []
    historical := []
    diskClients := none
    diskMetadata := some 5
    diskCompanies :=
      [("c1", { config := some [("a", JVal.jnum 1)]
                shards := [((2024, 5), [("bob", [])])] })] }

/-- Counterexample to C7 as stated: with a company on disk but not in the
cache, `getBackupData` returns no data for it — it reads the in-process
cache rather than walking the local data tree. -/
theorem getBackupData_not_disk_walk_counterexample :
    (getBackupData stDiskOnly 0).2.companies = []
    ∧ ¬ ((getBackupData stDiskOnly 0).2.companies
          = backupCompaniesFromDiskSpec stDiskOnly) := by decide

theorem olookup_eq_none_of_not_mem [DecidableEq κ] (o : List (κ × α)) (k : κ)
    (h : k ∉ o.map Prod.fst) : olookup o k = none := by
  cases hl : olookup o k with
  | none => rfl
  | some v => exact absurd (olookup_mem_keys o k v hl) h

theorem ensureDiskCompany_frame (s : DMState) (cid : String) :
    (ensureDiskCompany s cid).cacheCompanies = s.cacheCompanies
    ∧ (ensureDiskCompany s cid).diskMetadata = s.diskMetadata
    ∧ (ensureDiskCompany s cid).diskClients = s.diskClients
    ∧ (ensureDiskCompany s cid).clients = s.clients
    ∧ (ensureDiskCompany s cid).historical = s.historical := by
  unfold ensureDiskCompany
  split <;> exact ⟨rfl, rfl, rfl, rfl, rfl⟩

theorem ensureDiskCompany_lookup_ne (s : DMState) (cid cid' : String)
    (h : cid' ≠ cid) :
    olookup (ensureDiskCompany s cid).diskCompanies cid'
      = olookup s.diskCompanies cid' := by
  unfold ensureDiskCompany
  split
  · rfl
  · exact olookup_oset_ne _ cid cid' _ (fun hx => h hx.symm)

theorem ensureDiskCompany_configOf (s : DMState) (cid cid' : String) :
    diskConfigOf (ensureDiskCompany s cid) cid' = diskConfigOf s cid' := by
  by_cases hc : cid' = cid
  · subst hc
    unfold diskConfigOf ensureDiskCompany
    split
    · rfl
    · rename_i h
      rw [olookup_oset_self]
      cases hdc : olookup s.diskCompanies cid' with
      | none => rfl
      | some dc =>
        rw [hdc] at h
        simp at h
  · unfold diskConfigOf
    rw [ensureDiskCompany_lookup_ne s cid cid' hc]

theorem ensureDiskCompany_shardOf (s : DMState) (cid cid' : String) (k : Nat × Nat) :
    diskShardOf (ensureDiskCompany s cid) cid' k = diskShardOf s cid' k := by
  by_cases hc : cid' = cid
  · subst hc
    unfold diskShardOf ensureDiskCompany
    split
    · rfl
    · rename_i h
      rw [olookup_oset_self]
      cases hdc : olookup s.diskCompanies cid' with
      | none => rfl
      | some dc =>
        rw [hdc] at h
        simp at h
  · unfold diskShardOf
    rw [ensureDiskCompany_lookup_ne s cid cid' hc]

theorem modifyDiskCompany_frame (s : DMState) (cid : String)
    (f : DiskCompany → DiskCompany) :
    (modifyDiskCompany s cid f).cacheCompanies = s.cacheCompanies
    ∧ (modifyDiskCompany s cid f).diskMetadata = s.diskMetadata
    ∧ (modifyDiskCompany s cid f).diskClients = s.diskClients
    ∧ (modifyDiskCompany s cid f).clients = s.clients
    ∧ (modifyDiskCompany s cid f).historical = s.historical :=
  ⟨rfl, rfl, rfl, rfl, rfl⟩

theorem modifyDiskCompany_lookup_self (s : DMState) (cid : String)
    (f : DiskCompany → DiskCompany) :
    olookup (modifyDiskCompany s cid f).diskCompanies cid
      = some (f ((olookup s.diskCompanies cid).getD ⟨none, []⟩)) :=
  olookup_oset_self _ _ _

theorem modifyDiskCompany_lookup_ne (s : DMState) (cid cid' : String)
    (f : DiskCompany → DiskCompany) (h : cid' ≠ cid) :
    olookup (modifyDiskCompany s cid f).diskCompanies cid'
      = olookup s.diskCompanies cid' :=
  olookup_oset_ne _ cid cid' _ (fun hx => h hx.symm)

theorem modifyCacheCompany_frame (s : DMState) (cid : String)
    (f : CompanyCache → CompanyCache) :
    (modifyCacheCompany s cid f).diskCompanies = s.diskCompanies
    ∧ (modifyCacheCompany s cid f).diskMetadata = s.diskMetadata
    ∧ (modifyCacheCompany s cid f).diskClients = s.diskClients
    ∧ (modifyCacheCompany s cid f).clients = s.clients
    ∧ (modifyCacheCompany s cid f).historical = s.historical :=
  ⟨rfl, rfl, rfl, rfl, rfl⟩

theorem modifyCacheCompany_lookup_self (s : DMState) (cid : String)
    (f : CompanyCache → CompanyCache) :
    olookup (modifyCacheCompany s cid f).cacheCompanies cid
      = some (f ((olookup s.cacheCompanies cid).getD ⟨[], []⟩)) :=
  olookup_oset_self _ _ _

theorem setDiskConfig_configOf_self (s : DMState) (cid : String)
    (cfg : List (String × JVal)) :
    diskConfigOf (setDiskConfig s cid cfg) cid = some cfg := by
  unfold diskConfigOf setDiskConfig
  rw [modifyDiskCompany_lookup_self]
  rfl

theorem setDiskConfig_configOf_ne (s : DMState) (cid cid' : String)
    (cfg : List (String × JVal)) (h : cid' ≠ cid) :
    diskConfigOf (setDiskConfig s cid cfg) cid' = diskConfigOf s cid' := by
  unfold diskConfigOf setDiskConfig
  rw [modifyDiskCompany_lookup_ne s cid cid' _ h]

theorem setDiskConfig_shardOf (s : DMState) (cid cid' : String)
    (cfg : List (String × JVal)) (k : Nat × Nat) :
    diskShardOf (setDiskConfig s cid cfg) cid' k = diskShardOf s cid' k := by
  by_cases hc : cid' = cid
  · subst hc
    unfold diskShardOf setDiskConfig
    rw [modifyDiskCompany_lookup_self]
    cases hdc : olookup s.diskCompanies cid' with
    | none => rfl
    | some dc => rfl
  · unfold diskShardOf setDiskConfig
    rw [modifyDiskCompany_lookup_ne s cid cid' _ hc]

theorem setDiskShard_shardOf_self (s : DMState) (cid : String) (k : Nat × Nat)
    (sh : Shard) : diskShardOf (setDiskShard s cid k sh) cid k = some sh := by
  unfold diskShardOf setDiskShard
  rw [modifyDiskCompany_lookup_self, Option.some_bind]
  exact olookup_oset_self _ _ _

theorem setDiskShard_shardOf_ne_key (s : DMState) (cid : String) (k k' : Nat × Nat)
    (sh : Shard) (h : k' ≠ k) :
    diskShardOf (setDiskShard s cid k sh) cid k' = diskShardOf s cid k' := by
  unfold diskShardOf setDiskShard
  rw [modifyDiskCompany_lookup_self, Option.some_bind]
  rw [olookup_oset_ne _ k k' _ (fun hx => h hx.symm)]
  cases hdc : olookup s.diskCompanies cid with
  | none => rfl
  | some dc => rfl

theorem setDiskShard_shardOf_ne_cid (s : DMState) (cid cid' : String)
    (k k' : Nat × Nat) (sh : Shard) (h : cid' ≠ cid) :
    diskShardOf (setDiskShard s cid k sh) cid' k' = diskShardOf s cid' k' := by
  unfold diskShardOf setDiskShard
  rw [modifyDiskCompany_lookup_ne s cid cid' _ h]

theorem setDiskShard_configOf (s : DMState) (cid cid' : String) (k : Nat × Nat)
    (sh : Shard) : diskConfigOf (setDiskShard s cid k sh) cid' = diskConfigOf s cid' := by
  by_cases hc : cid' = cid
  · subst hc
    unfold diskConfigOf setDiskShard
    rw [modifyDiskCompany_lookup_self]
    cases hdc : olookup s.diskCompanies cid' with
    | none => rfl
    | some dc => rfl
  · unfold diskConfigOf setDiskShard
    rw [modifyDiskCompany_lookup_ne s cid cid' _ hc]

theorem restoreShiftEntries_ok (cid : String) :
    ∀ (entries : List ((Nat × Nat) × Shard)) (s : DMState),
    (olookup s.cacheCompanies cid).isSome = true →
    ∃ s', restoreShiftEntries s cid entries = Except.ok s'
      ∧ (olookup s'.cacheCompanies cid).isSome = true
      ∧ ((entries.map Prod.fst).Nodup →
          ∀ k sh, olookup entries k = some sh → diskShardOf s' cid k = some sh)
      ∧ (∀ k, olookup entries k = none → diskShardOf s' cid k = diskShardOf s cid k)
      ∧ diskConfigOf s' cid = diskConfigOf s cid
      ∧ (∀ cid', cid' ≠ cid →
          olookup s'.diskCompanies cid' = olookup s.diskCompanies cid')
      ∧ s'.diskMetadata = s.diskMetadata
      ∧ s'.diskClients = s.diskClients
      ∧ s'.clients = s.clients := by
  intro entries
  induction entries with
  | nil =>
    intro s hc
    refine ⟨s, rfl, hc, ?_, fun _ _ => rfl, rfl, fun _ _ => rfl, rfl, rfl, rfl⟩
    intro _ k sh h
    simp [olookup] at h
  | cons e rest ih =>
    intro s hc
    obtain ⟨k0, sh0⟩ := e
    have hc1 : (olookup (setDiskShard s cid k0 sh0).cacheCompanies cid).isSome = true := hc
    cases hl : olookup (setDiskShard s cid k0 sh0).cacheCompanies cid with
    | none =>
      rw [hl] at hc1
      simp at hc1
    | some cc0 =>
      have hc2 : (olookup (modifyCacheCompany (setDiskShard s cid k0 sh0) cid
          (fun cc => { cc with shifts := oset cc.shifts k0 sh0 })).cacheCompanies
            cid).isSome = true := by
        rw [modifyCacheCompany_lookup_self]
        rfl
      obtain ⟨s', hok, hcs, hF1, hF2, hcfg, hframe, hmeta, hdcl, hcl⟩ :=
        ih (modifyCacheCompany (setDiskShard s cid k0 sh0) cid
          (fun cc => { cc with shifts := oset cc.shifts k0 sh0 })) hc2
      have hstep : restoreShiftEntries s cid ((k0, sh0) :: rest)
          = restoreShiftEntries (modifyCacheCompany (setDiskShard s cid k0 sh0) cid
              (fun cc => { cc with shifts := oset cc.shifts k0 sh0 })) cid rest := by
        conv_lhs => rw [restoreShiftEntries]
        dsimp only
        rw [hl]
      refine ⟨s', by rw [hstep]; exact hok, hcs, ?_, ?_, ?_, ?_, hmeta, hdcl, hcl⟩
      · intro hnd k sh hlk
        rw [List.map_cons, List.nodup_cons] at hnd
        by_cases hk : k0 = k
        · subst hk
          unfold olookup at hlk
          rw [if_pos rfl] at hlk
          injection hlk with hlk
          subst hlk
          have hnone : olookup rest k0 = none :=
            olookup_eq_none_of_not_mem rest k0 hnd.1
          rw [hF2 k0 hnone]
          exact setDiskShard_shardOf_self s cid k0 sh0
        · unfold olookup at hlk
          rw [if_neg hk] at hlk
          exact hF1 hnd.2 k sh hlk
      · intro k hlk
        unfold olookup at hlk
        by_cases hk : k0 = k
        · rw [if_pos hk] at hlk
          exact absurd hlk (by simp)
        · rw [if_neg hk] at hlk
          rw [hF2 k hlk]
          exact setDiskShard_shardOf_ne_key s cid k0 k sh0 (fun hx => hk hx.symm)
      · rw [hcfg]
        exact setDiskShard_configOf s cid cid k0 sh0
      · intro cid' hcid'
        rw [hframe cid' hcid']
        exact modifyDiskCompany_lookup_ne s cid cid'
          (fun dc => { dc with shards := oset dc.shards k0 sh0 }) hcid'

theorem diskConfigOf_congr (s s' : DMState) (cid : String)
    (h : olookup s'.diskCompanies cid = olookup s.diskCompanies cid) :
    diskConfigOf s' cid = diskConfigOf s cid := by
  unfold diskConfigOf
  rw [h]

theorem diskShardOf_congr (s s' : DMState) (cid : String) (k : Nat × Nat)
    (h : olookup s'.diskCompanies cid = olookup s.diskCompanies cid) :
    diskShardOf s' cid k = diskShardOf s cid k := by
  unfold diskShardOf
  rw [h]

theorem restoreCompany_ok (s : DMState) (cid : String) (cb : CompanyBackup)
    (cfg : List (String × JVal)) (hcfg : cb.config = some cfg) :
    ∃ s', restoreCompany s cid cb = Except.ok s'
      ∧ diskConfigOf s' cid = some cfg
      ∧ (∀ es, cb.shifts = some es → (es.map Prod.fst).Nodup →
          ∀ k sh, olookup es k = some sh → diskShardOf s' cid k = some sh)
      ∧ (∀ cid', cid' ≠ cid →
          olookup s'.diskCompanies cid' = olookup s.diskCompanies cid')
      ∧ s'.diskMetadata = s.diskMetadata
      ∧ s'.diskClients = s.diskClients
      ∧ s'.clients = s.clients := by
  have hfr2 : ∀ cid', cid' ≠ cid →
      olookup (modifyCacheCompany (setDiskConfig (ensureDiskCompany s cid) cid cfg)
        cid (fun cc => { cc with config := cfg })).diskCompanies cid'
        = olookup s.diskCompanies cid' := by
    intro cid' h
    have h1 := modifyDiskCompany_lookup_ne (ensureDiskCompany s cid) cid cid'
      (fun dc => { dc with config := some cfg }) h
    have h2 := ensureDiskCompany_lookup_ne s cid cid' h
    exact h1.trans h2
  have hcfg2 : diskConfigOf (modifyCacheCompany (setDiskConfig (ensureDiskCompany s cid)
      cid cfg) cid (fun cc => { cc with config := cfg })) cid = some cfg :=
    setDiskConfig_configOf_self (ensureDiskCompany s cid) cid cfg
  have hmeta2 : (modifyCacheCompany (setDiskConfig (ensureDiskCompany s cid) cid cfg)
      cid (fun cc => { cc with config := cfg })).diskMetadata = s.diskMetadata :=
    (ensureDiskCompany_frame s cid).2.1
  have hdcl2 : (modifyCacheCompany (setDiskConfig (ensureDiskCompany s cid) cid cfg)
      cid (fun cc => { cc with config := cfg })).diskClients = s.diskClients :=
    (ensureDiskCompany_frame s cid).2.2.1
  have hcl2 : (modifyCacheCompany (setDiskConfig (ensureDiskCompany s cid) cid cfg)
      cid (fun cc => { cc with config := cfg })).clients = s.clients :=
    (ensureDiskCompany_frame s cid).2.2.2.1
  have hcache2 : (olookup (modifyCacheCompany (setDiskConfig (ensureDiskCompany s cid)
      cid cfg) cid (fun cc => { cc with config := cfg })).cacheCompanies cid).isSome
      = true := by
    rw [modifyCacheCompany_lookup_self]
    rfl
  cases hsh : cb.shifts with
  | none =>
    refine ⟨modifyCacheCompany (setDiskConfig (ensureDiskCompany s cid) cid cfg) cid
      (fun cc => { cc with config := cfg }), ?_, hcfg2, ?_, hfr2, hmeta2, hdcl2, hcl2⟩
    · conv_lhs => rw [restoreCompany]
      rw [hcfg, hsh]
    · intro es hes
      exact Option.noConfusion hes
  | some es =>
    obtain ⟨s', hok, _, hF1, _, hcfgP, hframeP, hmetaP, hdclP, hclP⟩ :=
      restoreShiftEntries_ok cid es
        (modifyCacheCompany (setDiskConfig (ensureDiskCompany s cid) cid cfg) cid
          (fun cc => { cc with config := cfg })) hcache2
    refine ⟨s', ?_, ?_, ?_, ?_, ?_, ?_, ?_⟩
    · conv_lhs => rw [restoreCompany]
      rw [hcfg, hsh]
      exact hok
    · rw [hcfgP]
      exact hcfg2
    · intro es' hes' hnd k sh hlk
      injection hes' with he
      subst he
      exact hF1 hnd k sh hlk
    · intro cid' h
      rw [hframeP cid' h]
      exact hfr2 cid' h
    · rw [hmetaP]
      exact hmeta2
    · rw [hdclP]
      exact hdcl2
    · rw [hclP]
      exact hcl2

theorem restoreCompanies_ok :
    ∀ (l : List (String × CompanyBackup)) (s : DMState),
    (∀ p ∈ l, p.2.config.isSome = true) →
    (l.map Prod.fst).Nodup →
    ∃ s', restoreCompanies s l = Except.ok s'
      ∧ (∀ cid cb, olookup l cid = some cb →
          (∀ cfg, cb.config = some cfg → diskConfigOf s' cid = some cfg)
          ∧ (∀ es, cb.shifts = some es → (es.map Prod.fst).Nodup →
              ∀ k sh, olookup es k = some sh → diskShardOf s' cid k = some sh))
      ∧ (∀ cid, cid ∉ l.map Prod.fst →
          olookup s'.diskCompanies cid = olookup s.diskCompanies cid)
      ∧ s'.diskMetadata = s.diskMetadata
      ∧ s'.diskClients = s.diskClients
      ∧ s'.clients = s.clients := by
  intro l
  induction l with
  | nil =>
    intro s _ _
    refine ⟨s, rfl, ?_, fun _ _ => rfl, rfl, rfl, rfl⟩
    intro cid cb hlk
    simp [olookup] at hlk
  | cons p rest ih =>
    intro s hAll hnd
    obtain ⟨cid0, cb0⟩ := p
    rw [List.map_cons, List.nodup_cons] at hnd
    have hc0 : cb0.config.isSome = true := hAll (cid0, cb0) (List.mem_cons_self _ _)
    obtain ⟨cfg0, hcfg0⟩ := Option.isSome_iff_exists.mp hc0
    obtain ⟨s1, hok1, hcfgP1, hshP1, hfr1, hm1, hd1, hc1⟩ :=
      restoreCompany_ok s cid0 cb0 cfg0 hcfg0
    obtain ⟨s', hok, hprops, hfr, hm, hd, hcl⟩ :=
      ih s1 (fun q hq => hAll q (List.mem_cons_of_mem _ hq)) hnd.2
    have hstep : restoreCompanies s ((cid0, cb0) :: rest) = restoreCompanies s1 rest := by
      conv_lhs => rw [restoreCompanies]
      rw [hok1]
    refine ⟨s', by rw [hstep]; exact hok, ?_, ?_, ?_, ?_, ?_⟩
    · intro cid cb hlk
      unfold olookup at hlk
      by_cases hk : cid0 = cid
      · subst hk
        rw [if_pos rfl] at hlk
        injection hlk with hlk
        subst hlk
        have hpres : olookup s'.diskCompanies cid0 = olookup s1.diskCompanies cid0 :=
          hfr cid0 hnd.1
        constructor
        · intro cfg hcfg
          rw [hcfg0] at hcfg
          injection hcfg with hcfg
          subst hcfg
          rw [diskConfigOf_congr s1 s' cid0 hpres]
          exact hcfgP1
        · intro es hes hndes k sh hlk2
          rw [diskShardOf_congr s1 s' cid0 k hpres]
          exact hshP1 es hes hndes k sh hlk2
      · rw [if_neg hk] at hlk
        exact hprops cid cb hlk
    · intro cid hnotin
      rw [List.map_cons, List.mem_cons] at hnotin
      push_neg at hnotin
      rw [hfr cid hnotin.2]
      exact hfr1 cid (fun hx => hnotin.1 hx)
    · rw [hm]
      exact hm1
    · rw [hd]
      exact hd1
    · rw [hcl]
      exact hc1

theorem olookup_mem [DecidableEq κ] (o : List (κ × α)) (k : κ) (v : α)
    (h : olookup o k = some v) : (k, v) ∈ o := by
  induction o with
  | nil => simp [olookup] at h
  | cons p rest ih =>
    unfold olookup at h
    by_cases hk : p.1 = k
    · rw [if_pos hk] at h
      injection h with h
      have : (k, v) = p := by
        rw [← hk, ← h]
      rw [this]
      exact List.mem_cons_self _ _
    · rw [if_neg hk] at h
      exact List.mem_cons_of_mem _ (ih h)

/-- C1: startup reconciliation. With the local metadata reading `localTime`
and a successfully fetched snapshot carrying `remoteTime` (well-formed:
every company entry has a config, object keys unique), `smartRestoreFromGAS`
skips — leaving the state untouched — iff `localTime > 0` and
`localTime ≥ remoteTime`; otherwise it writes every clients/config/shard
file of the snapshot to its local path and the effective write-time
metadata ends up equal to `remoteTime`. -/
theorem smartRestoreFromGAS_reconciliation (s : DMState)
    (localTime remoteTime : Nat) (backup : Backup)
    (l : List (String × CompanyBackup))
    (hlt : getLastWriteTime s = localTime)
    (hmt : backup.metadataTime = some remoteTime)
    (hcomp : backup.companies = some l)
    (hcfg : ∀ p ∈ l, p.2.config.isSome = true)
    (hkeys : (l.map Prod.fst).Nodup)
    (hshnd : ∀ p ∈ l, ∀ es, p.2.shifts = some es → (es.map Prod.fst).Nodup) :
    (0 < localTime ∧ remoteTime ≤ localTime →
      smartRestoreFromGAS s localTime true (some backup) = (s, true))
    ∧ (¬ (0 < localTime ∧ remoteTime ≤ localTime) →
        (smartRestoreFromGAS s localTime true (some backup)).2 = true
        ∧ getLastWriteTime (smartRestoreFromGAS s localTime true (some backup)).1
            = remoteTime
        ∧ (∀ c, backup.clients = some c →
            (smartRestoreFromGAS s localTime true (some backup)).1.diskClients = some c
            ∧ (smartRestoreFromGAS s localTime true (some backup)).1.clients = c)
        ∧ (∀ cid cb, olookup l cid = some cb →
            (∀ cfg, cb.config = some cfg →
              diskConfigOf (smartRestoreFromGAS s localTime true (some backup)).1 cid
                = some cfg)
            ∧ (∀ es, cb.shifts = some es → ∀ k sh, olookup es k = some sh →
                diskShardOf (smartRestoreFromGAS s localTime true (some backup)).1 cid k
                  = some sh))) := by
  have hstep : smartRestoreFromGAS s localTime true (some backup)
      = if 0 < localTime ∧ remoteTime ≤ localTime then (s, true)
        else
          match restoreCompanies
              (match backup.clients with
               | some c => { s with clients := c, diskClients := some c }
               | none => s) l with
          | Except.error e => (e, false)
          | Except.ok s2 =>
            if 0 < remoteTime then ({ s2 with diskMetadata := some remoteTime }, true)
            else (s2, true) := by
    conv_lhs => rw [smartRestoreFromGAS]
    rw [if_neg (fun h => h rfl)]
    dsimp only
    rw [hmt, Option.getD_some, hcomp]
  constructor
  · intro hskip
    rw [hstep, if_pos hskip]
  · intro hnoskip
    rw [hstep, if_neg hnoskip]
    obtain ⟨s2, hok2, hprops2, _, hm2, hd2, hc2⟩ :=
      restoreCompanies_ok l
        (match backup.clients with
         | some c => { s with clients := c, diskClients := some c }
         | none => s) hcfg hkeys
    rw [hok2]
    dsimp only
    have hmeta1 : (match backup.clients with
        | some c => { s with clients := c, diskClients := some c }
        | none => s).diskMetadata = s.diskMetadata := by
      cases backup.clients <;> rfl
    have hdcl1 : ∀ c, backup.clients = some c →
        (match backup.clients with
         | some c => { s with clients := c, diskClients := some c }
         | none => s).diskClients = some c
        ∧ (match backup.clients with
           | some c => { s with clients := c, diskClients := some c }
           | none => s).clients = c := by
      intro c hc
      rw [hc]
      exact ⟨rfl, rfl⟩
    by_cases hrt : 0 < remoteTime
    · rw [if_pos hrt]
      refine ⟨rfl, rfl, ?_, ?_⟩
      · intro c hc
        constructor
        · show s2.diskClients = some c
          rw [hd2]
          exact (hdcl1 c hc).1
        · show s2.clients = c
          rw [hc2]
          exact (hdcl1 c hc).2
      · intro cid cb hlk
        constructor
        · intro cfg hcfg'
          show diskConfigOf s2 cid = some cfg
          exact (hprops2 cid cb hlk).1 cfg hcfg'
        · intro es hes k sh hsh'
          show diskShardOf s2 cid k = some sh
          have hnd : (es.map Prod.fst).Nodup :=
            hshnd (cid, cb) (olookup_mem l cid cb hlk) es hes
          exact (hprops2 cid cb hlk).2 es hes hnd k sh hsh'
    · rw [if_neg hrt]
      have hrt0 : remoteTime = 0 := by omega
      have hlt0 : localTime = 0 := by
        by_cases h0 : 0 < localTime
        · exact absurd ⟨h0, by omega⟩ hnoskip
        · omega
      refine ⟨rfl, ?_, ?_, ?_⟩
      · show s2.diskMetadata.getD 0 = remoteTime
        rw [hm2, hmeta1]
        have : s.diskMetadata.getD 0 = localTime := hlt
        rw [this, hlt0, hrt0]
      · intro c hc
        constructor
        · show s2.diskClients = some c
          rw [hd2]
          exact (hdcl1 c hc).1
        · show s2.clients = c
          rw [hc2]
          exact (hdcl1 c hc).2
      · intro cid cb hlk
        constructor
        · intro cfg hcfg'
          show diskConfigOf s2 cid = some cfg
          exact (hprops2 cid cb hlk).1 cfg hcfg'
        · intro es hes k sh hsh'
          show diskShardOf s2 cid k = some sh
          have hnd : (es.map Prod.fst).Nodup :=
            hshnd (cid, cb) (olookup_mem l cid cb hlk) es hes
          exact (hprops2 cid cb hlk).2 es hes hnd k sh hsh'

/-- A concrete well-formed restore payload for the C1 witness. -/
def backupW : Backup :=
  { clients := some (JVal.jnum 7)
    companies := some [("c1",
      { config := some [("a", JVal.jnum 1)]
        shifts := some [((2024, 5), [("bob",
          [{ start := some 1, «end» := some 2, location := none, note := none }])])] })]
    metadataTime := some 200 }

/-- Witness for C1: with `localTime = 0` and `remoteTime = 200`, the restore
runs and the local write-time metadata ends up at 200. -/
theorem smartRestoreFromGAS_reconciliation_witness :
    getLastWriteTime (smartRestoreFromGAS stEmpty 0 true (some backupW)).1 = 200 :=
  ((smartRestoreFromGAS_reconciliation stEmpty 0 200 backupW
      [("c1", { config := some [("a", JVal.jnum 1)]
                shifts := some [((2024, 5), [("bob",
                  [{ start := some 1, «end» := some 2, location := none,
                     note := none }])])] })]
      rfl rfl rfl (by decide) (by decide) (by decide)).2 (by decide)).2.1

/-- The shard a fresh read observes: the cached value when present, else
the on-disk file (missing file = `{}`), exactly what `getShifts` returns. -/
def readShard (s : DMState) (cid : String) (k : Nat × Nat) : Shard :=
  match cacheShardOf s cid k with
  | some sh => sh
  | none => (diskShardOf s cid k).getD []

/-- An employee's entry sequence in the month shard `k` as a fresh read
observes it. -/
def empSeqAt (s : DMState) (cid emp : String) (k : Nat × Nat) : List ShiftEntry :=
  (olookup (readShard s cid k) emp).getD []

theorem loadCompany_cache_isSome (s : DMState) (cid : String) :
    (olookup (loadCompany s cid).cacheCompanies cid).isSome = true := by
  unfold loadCompany
  by_cases h : (olookup s.cacheCompanies cid).isSome
  · rw [if_pos h]
    exact h
  · rw [if_neg h]
    dsimp only
    rw [olookup_oset_self]
    rfl

theorem loadCompany_cacheShardOf (s : DMState) (cid : String) (k : Nat × Nat) :
    cacheShardOf (loadCompany s cid) cid k = cacheShardOf s cid k := by
  unfold cacheShardOf loadCompany
  by_cases h : (olookup s.cacheCompanies cid).isSome
  · rw [if_pos h]
  · rw [if_neg h]
    dsimp only
    rw [olookup_oset_self, Option.some_bind]
    cases hc : olookup s.cacheCompanies cid with
    | none => rfl
    | some cc =>
      rw [hc] at h
      simp at h

theorem loadCompany_diskShardOf (s : DMState) (cid cid' : String) (k : Nat × Nat) :
    diskShardOf (loadCompany s cid) cid' k = diskShardOf s cid' k := by
  unfold loadCompany
  by_cases h : (olookup s.cacheCompanies cid).isSome
  · rw [if_pos h]
  · rw [if_neg h]
    dsimp only
    exact ensureDiskCompany_shardOf s cid cid' k

theorem cacheShardOf_modify_oset_ne (s : DMState) (cid : String) (k0 : Nat × Nat)
    (sh : Shard) (k : Nat × Nat) (hk : k ≠ k0) :
    cacheShardOf (modifyCacheCompany s cid
        (fun cc => { cc with shifts := oset cc.shifts k0 sh })) cid k
      = cacheShardOf s cid k := by
  unfold cacheShardOf
  rw [modifyCacheCompany_lookup_self, Option.some_bind]
  dsimp only
  rw [olookup_oset_ne _ k0 k _ (fun hx => hk hx.symm)]
  cases hc : olookup s.cacheCompanies cid with
  | none => rfl
  | some cc => rfl

theorem getShifts_state_cacheShardOf (s : DMState) (cid : String) (y m : Nat)
    (k : Nat × Nat) (hk : k ≠ (y, m)) :
    cacheShardOf (getShifts s cid y m).1 cid k = cacheShardOf s cid k := by
  unfold getShifts
  dsimp only
  cases hhit : (olookup (loadCompany s cid).cacheCompanies cid).bind
      (fun cc => olookup cc.shifts (y, m)) with
  | some sh =>
    exact loadCompany_cacheShardOf s cid k
  | none =>
    exact (cacheShardOf_modify_oset_ne (loadCompany s cid) cid (y, m) _ k hk).trans
      (loadCompany_cacheShardOf s cid k)

theorem getShifts_state_diskShardOf (s : DMState) (cid : String) (y m : Nat)
    (k : Nat × Nat) :
    diskShardOf (getShifts s cid y m).1 cid k = diskShardOf s cid k := by
  unfold getShifts
  dsimp only
  cases hhit : (olookup (loadCompany s cid).cacheCompanies cid).bind
      (fun cc => olookup cc.shifts (y, m)) with
  | some sh =>
    exact loadCompany_diskShardOf s cid cid k
  | none =>
    exact loadCompany_diskShardOf s cid cid k

theorem saveShifts_cacheShardOf_ne (s : DMState) (cid : String) (y m : Nat)
    (sh : Shard) (now : Nat) (k : Nat × Nat) (hk : k ≠ (y, m)) :
    cacheShardOf (saveShifts s cid y m sh now) cid k = cacheShardOf s cid k := by
  have h1 : cacheShardOf (saveShifts s cid y m sh now) cid k
      = cacheShardOf (modifyCacheCompany (loadCompany s cid) cid
          (fun cc => { cc with shifts := oset cc.shifts (y, m) sh })) cid k := rfl
  rw [h1, cacheShardOf_modify_oset_ne (loadCompany s cid) cid (y, m) sh k hk,
    loadCompany_cacheShardOf]

theorem saveShifts_diskShardOf_ne (s : DMState) (cid : String) (y m : Nat)
    (sh : Shard) (now : Nat) (k : Nat × Nat) (hk : k ≠ (y, m)) :
    diskShardOf (saveShifts s cid y m sh now) cid k = diskShardOf s cid k := by
  have h1 : diskShardOf (saveShifts s cid y m sh now) cid k
      = diskShardOf (setDiskShard (loadCompany s cid) cid (y, m) sh) cid k := rfl
  rw [h1, setDiskShard_shardOf_ne_key (loadCompany s cid) cid (y, m) k sh hk,
    loadCompany_diskShardOf]

theorem getShifts_val (s : DMState) (cid : String) (y m : Nat) :
    (getShifts s cid y m).2 = readShard s cid (y, m) := by
  unfold getShifts readShard
  dsimp only
  rw [show (olookup (loadCompany s cid).cacheCompanies cid).bind
        (fun cc => olookup cc.shifts (y, m)) = cacheShardOf s cid (y, m)
      from loadCompany_cacheShardOf s cid (y, m)]
  cases hhit : cacheShardOf s cid (y, m) with
  | some sh => rfl
  | none =>
    dsimp only
    rw [loadCompany_diskShardOf s cid cid (y, m)]

theorem logShift_cacheShardOf_ne (s : DMState) (cid emp action : String)
    (ts : Nat) (loc note : Option String) (now : Nat) (k : Nat × Nat)
    (hk : k ≠ ymOfTs ts) :
    cacheShardOf (logShift s cid emp action ts loc note now).1 cid k
      = cacheShardOf s cid k := by
  refine (saveShifts_cacheShardOf_ne (getShifts s cid (ymOfTs ts).1 (ymOfTs ts).2).1
      cid (ymOfTs ts).1 (ymOfTs ts).2 _ now k hk).trans ?_
  exact getShifts_state_cacheShardOf s cid (ymOfTs ts).1 (ymOfTs ts).2 k hk

theorem logShift_diskShardOf_ne (s : DMState) (cid emp action : String)
    (ts : Nat) (loc note : Option String) (now : Nat) (k : Nat × Nat)
    (hk : k ≠ ymOfTs ts) :
    diskShardOf (logShift s cid emp action ts loc note now).1 cid k
      = diskShardOf s cid k := by
  refine (saveShifts_diskShardOf_ne (getShifts s cid (ymOfTs ts).1 (ymOfTs ts).2).1
      cid (ymOfTs ts).1 (ymOfTs ts).2 _ now k hk).trans ?_
  exact getShifts_state_diskShardOf s cid (ymOfTs ts).1 (ymOfTs ts).2 k

theorem empSeqAt_logShift_ne (s : DMState) (cid emp action : String) (ts : Nat)
    (loc note : Option String) (now : Nat) (k : Nat × Nat) (hk : k ≠ ymOfTs ts) :
    empSeqAt (logShift s cid emp action ts loc note now).1 cid emp k
      = empSeqAt s cid emp k := by
  unfold empSeqAt readShard
  rw [logShift_cacheShardOf_ne s cid emp action ts loc note now k hk,
    logShift_diskShardOf_ne s cid emp action ts loc note now k hk]

theorem empSeqBeforeLog_eq_empSeqAt (s : DMState) (cid emp : String) (ts : Nat) :
    empSeqBeforeLog s cid emp ts = empSeqAt s cid emp (ymOfTs ts) := by
  unfold empSeqBeforeLog empSeqAt
  rw [getShifts_val]

theorem empSeqAt_logShift_self (s : DMState) (cid emp action : String) (ts : Nat)
    (loc note : Option String) (now : Nat) :
    empSeqAt (logShift s cid emp action ts loc note now).1 cid emp (ymOfTs ts)
      = applyAction (empSeqAt s cid emp (ymOfTs ts)) action ts loc note := by
  have h1 : empSeqAt (logShift s cid emp action ts loc note now).1 cid emp (ymOfTs ts)
      = empSeqAfterLog s cid emp action ts loc note now := by
    unfold empSeqAt readShard empSeqAfterLog
    rw [logShift_cacheShard_eq]
    rfl
  rw [h1, empSeqAfterLog_eq, empSeqBeforeLog_eq_empSeqAt]

/-- Replay a sequence of `logShift` calls for one employee on the store. -/
def logShiftRun (cid emp : String) (now : Nat) :
    List ShiftCall → DMState → DMState
  | [], s => s
  | c :: rest, s =>
      logShiftRun cid emp now rest
        (logShift s cid emp c.action c.ts c.location c.note now).1

/-- Every `IN` in the call sequence is issued while the employee's sequence
in the shard of that punch's month is empty or ends in an entry with a
non-null end (the discipline a client that consults the clock-in status
before punching in follows). -/
def insGuardedRun (cid emp : String) (now : Nat) :
    List ShiftCall → DMState → Bool
  | [], _ => true
  | c :: rest, s =>
      (if c.action = "IN" then seqEndClosed (empSeqAt s cid emp (ymOfTs c.ts)) else true)
        && insGuardedRun cid emp now rest
          (logShift s cid emp c.action c.ts c.location c.note now).1

theorem logShiftRun_preserves (cid emp : String) (now : Nat) :
    ∀ (calls : List ShiftCall) (s : DMState),
      (∀ k, nonLastClosed (empSeqAt s cid emp k)) →
      insGuardedRun cid emp now calls s = true →
      ∀ k, nonLastClosed (empSeqAt (logShiftRun cid emp now calls s) cid emp k) := by
  intro calls
  induction calls with
  | nil =>
    intro s hInv _ k
    exact hInv k
  | cons c rest ih =>
    intro s hInv hG k
    unfold insGuardedRun at hG
    rw [Bool.and_eq_true] at hG
    unfold logShiftRun
    refine ih _ ?_ hG.2 k
    intro k'
    by_cases hk : k' = ymOfTs c.ts
    · subst hk
      rw [empSeqAt_logShift_self]
      refine applyAction_preserves_nonLastClosed _ c.action c.ts c.location c.note
        (hInv _) ?_
      intro hin
      have hg := hG.1
      rwa [if_pos hin] at hg
    · rw [empSeqAt_logShift_ne s cid emp c.action c.ts c.location c.note now k' hk]
      exact hInv k'

/-- C2 (amended): after any sequence of `logShift` calls for one employee
starting from the empty store, provided every `IN` is issued only while the
employee's sequence in the shard of that punch's month is empty or ends in
an entry with a non-null end, every month shard holds at most one entry
with a null end for that employee, and any such entry is the last one.
(Unrestricted `IN`s violate this — see the double-IN counterexample.) -/
theorem logShift_guarded_invariant (cid emp : String) (now : Nat)
    (calls : List ShiftCall)
    (h : insGuardedRun cid emp now calls stEmpty = true) :
    ∀ k, nonLastClosed (empSeqAt (logShiftRun cid emp now calls stEmpty) cid emp k)
      ∧ openEntries (empSeqAt (logShiftRun cid emp now calls stEmpty) cid emp k) ≤ 1 := by
  intro k
  have h0 : ∀ k', nonLastClosed (empSeqAt stEmpty cid emp k') := by
    intro k'
    have he : empSeqAt stEmpty cid emp k' = [] := rfl
    rw [he]
    intro e hmem
    simp at hmem
  have hInv := logShiftRun_preserves cid emp now calls stEmpty h0 h k
  exact ⟨hInv, openEntries_le_one_of_nonLastClosed _ hInv⟩

/-- Witness for the amended C2: the guarded sequence IN, OUT, IN, OUT on
the real store leaves the employee's January-1970 shard with no entry open
before the last. -/
theorem logShift_guarded_invariant_witness :
    openEntries (empSeqAt (logShiftRun "c1" "dana" 9
        [⟨"IN", 1000, none, none⟩, ⟨"OUT", 2000, none, none⟩,
         ⟨"IN", 3000, none, none⟩, ⟨"OUT", 4000, none, none⟩] stEmpty)
      "c1" "dana" (1970, 1)) ≤ 1 :=
  (logShift_guarded_invariant "c1" "dana" 9
      [⟨"IN", 1000, none, none⟩, ⟨"OUT", 2000, none, none⟩,
       ⟨"IN", 3000, none, none⟩, ⟨"OUT", 4000, none, none⟩] (by decide) (1970, 1)).2
